import Mathlib

/-!
Verification of the transport and RPC layer in src/src/bun/core/BrowserView.ts.

Modelling conventions:
- A JavaScript string is a sequence of UTF-16 code units, modelled as List Nat
  (each entry below 2^16).  String operations in the source (length, slice,
  indexOf, trim, concatenation) act on code units, and the model mirrors that.
- A write to a stream is recorded as the list of code units handed to the
  write call; a sequence of writes is a List of such lists.
- External collaborators (the socket transport, JSON.parse, JSON.stringify,
  mkfifo) are inputs of the modelled functions: their outcome is a parameter,
  and the model transcribes what BrowserView.ts does with that outcome.
-/

namespace BrowserViewSpec

/-- A JavaScript string: its UTF-16 code units. -/
abbrev Str := List Nat

/-- ASCII view of a Lean string literal, used to transcribe the string
literals of BrowserView.ts.  For pure-ASCII literals the UTF-16 code units
are exactly the code points. -/
def asciiOf (s : String) : Str := s.data.map Char.toNat

/-- Transcribes BrowserView.ts line 23: the 4KB chunk bound used by the
pipe-path encoder. -/
def CHUNK_SIZE : Nat := 1024 * 4

/-- Number of bytes a single UTF-16 code unit occupies once encoded to UTF-8
by the write stream, for a code unit that is not part of a valid surrogate
pair.  Code units below 0x80 take one byte, below 0x800 two bytes, all
others three (an unpaired surrogate is encoded by Node as the three-byte
replacement character, so width 3 applies to it as well). -/
def utf8UnitWidth (c : Nat) : Nat :=
  if c < 0x80 then 1 else if c < 0x800 then 2 else 3

/-- Number of UTF-8 bytes produced when a fs.WriteStream encodes a JavaScript
string (given as UTF-16 code units) under the default utf8 encoding: a valid
surrogate pair becomes one four-byte sequence, every other code unit is
encoded on its own. -/
def utf8ByteLength : Str → Nat
  | [] => 0
  | [c] => utf8UnitWidth c
  | c :: c2 :: rest =>
    if 0xD800 ≤ c ∧ c < 0xDC00 ∧ 0xDC00 ≤ c2 ∧ c2 < 0xE000 then
      4 + utf8ByteLength rest
    else
      utf8UnitWidth c + utf8ByteLength (c2 :: rest)

/-- UTF-8 bytes produced for one UTF-16 code unit that is not part of a
valid surrogate pair: one byte below 0x80, a two-byte sequence below 0x800,
the three replacement-character bytes EF BF BD for an unpaired surrogate
(what Node emits when a write encodes half of a split pair on its own), and
the generic three-byte sequence otherwise. -/
def utf8EncodeChar (c : Nat) : List Nat :=
  if c < 0x80 then [c]
  else if c < 0x800 then [0xC0 + c / 0x40, 0x80 + c % 0x40]
  else if 0xD800 ≤ c ∧ c < 0xE000 then [0xEF, 0xBF, 0xBD]
  else [0xE0 + c / 0x1000, 0x80 + (c / 0x40) % 0x40, 0x80 + c % 0x40]

/-- UTF-8 bytes of the code point formed by a valid surrogate pair: the
four-byte sequence of 0x10000 plus the two offsets. -/
def utf8EncodePair (c c2 : Nat) : List Nat :=
  [0xF0 + (0x10000 + (c - 0xD800) * 0x400 + (c2 - 0xDC00)) / 0x40000,
    0x80 + ((0x10000 + (c - 0xD800) * 0x400 + (c2 - 0xDC00)) / 0x1000) % 0x40,
    0x80 + ((0x10000 + (c - 0xD800) * 0x400 + (c2 - 0xDC00)) / 0x40) % 0x40,
    0x80 + (0x10000 + (c - 0xD800) * 0x400 + (c2 - 0xDC00)) % 0x40]

/-- The UTF-8 byte sequence a fs.WriteStream produces when it encodes one
JavaScript string (given as UTF-16 code units) under the default utf8
encoding: a valid surrogate pair becomes one four-byte sequence, every other
code unit is encoded on its own.  Each write call encodes its own chunk
independently, so a pair split across two writes is encoded as two lone
surrogates, that is two replacement characters. -/
def utf8Encode : Str → List Nat
  | [] => []
  | [c] => utf8EncodeChar c
  | c :: c2 :: rest =>
    if 0xD800 ≤ c ∧ c < 0xDC00 ∧ 0xDC00 ≤ c2 ∧ c2 < 0xE000 then
      utf8EncodePair c c2 ++ utf8Encode rest
    else
      utf8EncodeChar c ++ utf8Encode (c2 :: rest)

/-- Transcribes the while loop of executeJavascript (BrowserView.ts lines
232-237): starting at offset 0, repeatedly slice the next CHUNK_SIZE code
units and write them, until the offset passes the end of the string.  The
result is the list of chunk writes in order.  slice(offset, offset +
CHUNK_SIZE) on the remaining string is take CHUNK_SIZE, and advancing the
offset is drop CHUNK_SIZE. -/
def chunkString (js : Str) : List Str :=
  if h : js = [] then []
  else js.take CHUNK_SIZE :: chunkString (js.drop CHUNK_SIZE)
termination_by js.length
decreasing_by
  simp only [List.length_drop]
  exact Nat.sub_lt (List.length_pos.mpr h) (by decide)

/-- Transcribes executeJavascript (BrowserView.ts lines 231-241) as the
sequence of writes it performs on the inbound pipe: the chunk writes of the
while loop, then the single newline write. -/
def executeJavascript (js : Str) : List Str :=
  chunkString js ++ [[10]]

/-- Code points removed by String.prototype.trim: the ECMAScript WhiteSpace
and LineTerminator sets (all of them are single UTF-16 code units). -/
def isJsWhitespace (c : Nat) : Bool :=
  c == 0x9 || c == 0xA || c == 0xB || c == 0xC || c == 0xD || c == 0x20 ||
  c == 0xA0 || c == 0x1680 || (0x2000 ≤ c && c ≤ 0x200A) || c == 0x2028 ||
  c == 0x2029 || c == 0x202F || c == 0x205F || c == 0x3000 || c == 0xFEFF

/-- JavaScript String.prototype.trim on code units: strip leading and
trailing whitespace. -/
def trimList (l : Str) : Str :=
  ((l.dropWhile isJsWhitespace).reverse.dropWhile isJsWhitespace).reverse

/-- What the decode loop does with one complete line (readFromPipe,
BrowserView.ts lines 301-310): the line is delivered to the handler if it
parses, logged and dropped if JSON.parse throws, and silently skipped when
it is empty after trimming. -/
inductive LineOutcome (J : Type) where
  | delivered (event : J)
  | droppedMalformed
  | skippedEmpty

/-- Transcribes the body of the inner while loop for a single extracted line
(BrowserView.ts lines 301-310): trim it; if the trimmed line is truthy
(nonempty), JSON-parse it and deliver on success or log on failure; an empty
line falls through with no action.  JSON.parse is an external collaborator,
passed in as a partial parsing function whose none result models a thrown
SyntaxError. -/
def handleLine {J : Type} (parseJson : Str → Option J) (rawLine : Str) :
    LineOutcome J :=
  let line := trimList rawLine
  if line = [] then LineOutcome.skippedEmpty
  else
    match parseJson line with
    | some event => LineOutcome.delivered event
    | none => LineOutcome.droppedMalformed

/-- Outcomes of processing a list of complete lines in order. -/
def lineOutcomes {J : Type} (parseJson : Str → Option J) (lines : List Str) :
    List (LineOutcome J) :=
  lines.map (handleLine parseJson)

/-- The events actually handed to the handler, in order: the delivered
outcomes. -/
def deliveredOf {J : Type} (outcomes : List (LineOutcome J)) : List J :=
  outcomes.filterMap fun o =>
    match o with
    | LineOutcome.delivered event => some event
    | _ => none

/-- Transcribes the inner while loop of readFromPipe (BrowserView.ts lines
300-311): while the buffer contains a newline, slice off everything before
the first newline as one complete line and drop it plus the newline from the
buffer.  Returns the complete lines in order and the leftover buffer. -/
def drainBuffer (buffer : Str) : List Str × Str :=
  if h : (10:Nat) ∈ buffer then
    let eolIndex := buffer.indexOf 10
    let rest := drainBuffer (buffer.drop (eolIndex + 1))
    (buffer.take eolIndex :: rest.1, rest.2)
  else ([], buffer)
termination_by buffer.length
decreasing_by
  simp only [List.length_drop]
  exact Nat.sub_lt (List.length_pos.mpr (List.ne_nil_of_mem h)) (Nat.succ_pos _)

/-- Transcribes the outer read loop of readFromPipe (BrowserView.ts lines
292-312): keep an accumulating buffer across reads; for each value read,
append it to the buffer, drain every complete line, and handle each drained
line in order; stop delivering when the stream reports done. -/
def readLoop {J : Type} (parseJson : Str → Option J) :
    Str → List Str → List J
  | _, [] => []
  | buffer, value :: restOfStream =>
    let buf := buffer ++ value
    deliveredOf (lineOutcomes parseJson (drainBuffer buf).1) ++
      readLoop parseJson (drainBuffer buf).2 restOfStream

/-- The whole decode loop, started with an empty buffer on a stream of
reads. -/
def readFromPipe {J : Type} (parseJson : Str → Option J)
    (stream : List Str) : List J :=
  readLoop parseJson [] stream

/-- The wrapper literal of sendMessageToWebviewViaExecute (BrowserView.ts
line 224): the message string is spliced into a receiveMessageFromBun call.
The argument here is already a string, so the typeof check on line 220 keeps
it unchanged. -/
def wrapForExecute (messageString : Str) : Str :=
  asciiOf "window.__electrobun.receiveMessageFromBun(" ++ messageString ++
    asciiOf ")"

/-- Observable outcome of one createTransport().send call. -/
structure SendResult where
  sentOverSocket : Bool
  serializeAttempted : Bool
  pipeWrites : List Str
  serializationErrorLogged : Bool
deriving DecidableEq

/-- Transcribes createTransport().send (BrowserView.ts lines 274-285).
Socket delivery is attempted first; its success is reported by the external
socket layer and is the socketDelivered parameter.  Only when it reports
failure does the code enter the try block: JSON.stringify the message
(stringifyResult, whose none models a thrown serialization error) and on
success forward the string through sendMessageToWebviewViaExecute, which
wraps it and performs the executeJavascript pipe writes; a stringify throw
is caught and logged, and the function returns normally either way. -/
def transportSend (socketDelivered : Bool) (stringifyResult : Option Str) :
    SendResult :=
  if socketDelivered then
    { sentOverSocket := true, serializeAttempted := false, pipeWrites := [],
      serializationErrorLogged := false }
  else
    match stringifyResult with
    | some messageString =>
      { sentOverSocket := false, serializeAttempted := true,
        pipeWrites := executeJavascript (wrapForExecute messageString),
        serializationErrorLogged := false }
    | none =>
      { sentOverSocket := false, serializeAttempted := true, pipeWrites := [],
        serializationErrorLogged := true }

/-- A sequence of independent send calls on one transport, each described by
its socket outcome and stringify outcome. -/
def sendSequence (calls : List (Bool × Option Str)) : List SendResult :=
  calls.map fun call => transportSend call.1 call.2

/-- Outcome of one external execSync mkfifo call: none is success, some e is
a thrown error, recording whether the reason was that the path already
exists. -/
inductive MkfifoError where
  | alreadyExists
  | otherFailure
deriving DecidableEq

/-- State reached by createStreams: whether each mkfifo catch block logged,
and the writes performed to open the inbound pipe. -/
structure StreamsState where
  pipeOutCreateLogged : Bool
  pipeInCreateLogged : Bool
  openingWrites : List Str
deriving DecidableEq

/-- Transcribes createStreams (BrowserView.ts lines 183-216).  Each mkfifo
call sits in a try/catch whose catch block only logs and continues,
regardless of which error was thrown; afterwards the inbound pipe is opened
for writing and a single newline is written to it.  The Except return type
records whether construction aborts with a pipe-creation error: the source
never does, so the result is always ok. -/
def createStreams (outResult inResult : Option MkfifoError) :
    Except MkfifoError StreamsState :=
  Except.ok
    { pipeOutCreateLogged := outResult.isSome,
      pipeInCreateLogged := inResult.isSome,
      openingWrites := [[10]] }

/-- A string-typed option field at runtime: absent, null, or a string. -/
inductive JsStrVal where
  | undef
  | nullv
  | strv (s : Str)
deriving DecidableEq

/-- JavaScript truthiness for such a value: undefined and null are falsy and
a string is truthy unless empty. -/
def truthyStr : JsStrVal → Bool
  | JsStrVal.strv s => !s.isEmpty
  | _ => false

/-- JavaScript a or-else b on such values: the left operand when truthy,
otherwise the right operand. -/
def jsOrStr (a b : JsStrVal) : JsStrVal := if truthyStr a then a else b

/-- A fully resolved frame rectangle. -/
structure FrameRect where
  x : Int
  y : Int
  width : Int
  height : Int
deriving DecidableEq

/-- A frame object supplied in options: at runtime any subset of the four
fields may be present; spreading it over the defaults keeps the default for
each missing field. -/
structure FrameFields where
  x : Option Int
  y : Option Int
  width : Option Int
  height : Option Int
deriving DecidableEq

/-- The object spread of a possibly partial frame over a base rectangle:
each field present overrides, each missing field keeps the base value. -/
def spreadFrame (base : FrameRect) (f : FrameFields) : FrameRect :=
  { x := f.x.getD base.x, y := f.y.getD base.y,
    width := f.width.getD base.width, height := f.height.getD base.height }

/-- Fully populated frame fields of a rectangle. -/
def fieldsOfRect (r : FrameRect) : FrameFields :=
  { x := some r.x, y := some r.y, width := some r.width,
    height := some r.height }

/-- An undefined-or-boolean option value; the strict comparison with the
boolean literal false is an exact match on bv false. -/
inductive JsBoolVal where
  | undef
  | bv (b : Bool)
deriving DecidableEq

/-- The option-bag fields consumed by the defaulting logic of the
constructor. -/
structure BVOptions where
  url : JsStrVal
  html : JsStrVal
  preload : JsStrVal
  frame : Option FrameFields
  autoResize : JsBoolVal
deriving DecidableEq

/-- The frame literal inside defaultOptions (BrowserView.ts lines 51-56). -/
def defaultFrame : FrameRect := { x := 0, y := 0, width := 800, height := 600 }

/-- Transcribes defaultOptions (BrowserView.ts lines 47-57); it carries no
autoResize field. -/
def defaultOptions : BVOptions :=
  { url := JsStrVal.strv (asciiOf "https://electrobun.dev"),
    html := JsStrVal.nullv,
    preload := JsStrVal.nullv,
    frame := some (fieldsOfRect defaultFrame),
    autoResize := JsBoolVal.undef }

/-- The view fields produced by the defaulting logic. -/
structure ViewInitState where
  url : JsStrVal
  html : JsStrVal
  preload : JsStrVal
  frame : FrameRect
  autoResize : Bool
deriving DecidableEq

/-- Transcribes the defaulting assignments of the constructor (BrowserView.ts
lines 133-148): each string field is options-field or-else defaultOptions
field or-else null; the frame is the spread of the supplied frame over the
default frame when one is supplied, else a copy of the default frame; and
autoResize is false exactly when the option is strictly equal to the boolean
literal false.  Constructing without arguments uses defaultOptions as the
options value (the default parameter on line 133). -/
def constructView (options : BVOptions) : ViewInitState :=
  { url := jsOrStr (jsOrStr options.url defaultOptions.url) JsStrVal.nullv,
    html := jsOrStr (jsOrStr options.html defaultOptions.html) JsStrVal.nullv,
    preload :=
      jsOrStr (jsOrStr options.preload defaultOptions.preload) JsStrVal.nullv,
    frame :=
      match options.frame with
      | some f => spreadFrame defaultFrame f
      | none => defaultFrame,
    autoResize := if options.autoResize = JsBoolVal.bv false then false else true }

/-- An options bag with every field absent. -/
def emptyOptions : BVOptions :=
  { url := JsStrVal.undef, html := JsStrVal.undef, preload := JsStrVal.undef,
    frame := none, autoResize := JsBoolVal.undef }

/-- Directive issued to the native host by the load operations. -/
inductive HostDirective where
  | loadURLDirective (webviewId : Nat) (url : Str)
  | loadHTMLDirective (webviewId : Nat) (html : Str)
deriving DecidableEq

/-- Transcribes loadURL (BrowserView.ts lines 243-246): assign this.url, then
issue the load-url directive with the stored url.  The html field is not
touched. -/
def loadURL (s : ViewInitState) (webviewId : Nat) (u : Str) :
    ViewInitState × HostDirective :=
  let s2 := { s with url := JsStrVal.strv u }
  (s2, HostDirective.loadURLDirective webviewId u)

/-- Transcribes loadHTML (BrowserView.ts lines 248-251): assign this.html,
then issue the load-html directive with the stored html.  The url field is
not touched. -/
def loadHTML (s : ViewInitState) (webviewId : Nat) (h : Str) :
    ViewInitState × HostDirective :=
  let s2 := { s with html := JsStrVal.strv h }
  (s2, HostDirective.loadHTMLDirective webviewId h)

/-- The wildcard key under which defineRPC stores the wildcard message
handler. -/
def starKey : Str := asciiOf "*"

/-- One handler invocation performed by the message listener: the wildcard
handler receives the message name and the payload, a keyed handler receives
the payload (the key records which handler was looked up). -/
inductive RpcDispatchCall where
  | wildcardCall (messageName : Str) (payload : Str)
  | namedCall (handlerKey : Str) (payload : Str)
deriving DecidableEq

/-- Transcribes the message listener installed by defineRPC (BrowserView.ts
lines 399-412): look up the handler stored under the star key and invoke it
with (messageName, payload) when present; then look up the handler stored
under messageName and invoke it with the payload when present.  hasHandler
reports which keys of the handler object carry a handler; the result is the
invocation trace in order. -/
def dispatchMessage (hasHandler : Str → Bool) (messageName payload : Str) :
    List RpcDispatchCall :=
  (if hasHandler starKey then
    [RpcDispatchCall.wildcardCall messageName payload]
  else []) ++
  (if hasHandler messageName then
    [RpcDispatchCall.namedCall messageName payload]
  else [])

/-- Transcribes BrowserView.ts line 21: the module-level counter starts
at 1. -/
def nextWebviewIdInitial : Nat := 1

/-- Transcribes line 107: the view takes the current counter value as its id
and the counter advances by one. -/
def allocateWebviewId (counter : Nat) : Nat × Nat := (counter, counter + 1)

/-- Ids handed out by a number of successive constructions starting from a
given counter value. -/
def idsFrom (counter : Nat) : Nat → List Nat
  | 0 => []
  | n + 1 =>
    (allocateWebviewId counter).1 :: idsFrom (allocateWebviewId counter).2 n

/-- Ids assigned to the first n views of one process instance. -/
def viewIdsAfter (n : Nat) : List Nat := idsFrom nextWebviewIdInitial n

/-- Decimal rendering (as code units) of a number interpolated into a
template literal. -/
def natToDec (n : Nat) : Str :=
  if n = 0 then [48] else ((Nat.digits 10 n).map (fun d => d + 48)).reverse

/-- Everything before the id in the pipe-prefix template of line 146; 95 is
the underscore code unit. -/
def pipePrefixBase (hash randomId : Str) : Str :=
  asciiOf "/private/tmp/electrobun_ipc_pipe_" ++ hash ++ [95] ++ randomId ++ [95]

/-- Transcribes the pipePrefix template literal of BrowserView.ts line 146
for a given build hash and per-process random salt. -/
def pipePrefixOf (hash randomId : Str) (id : Nat) : Str :=
  pipePrefixBase hash randomId ++ natToDec id

/-- An options bag exercising the defaulting logic: a null url, an empty
(falsy) html string, an absent preload, a frame carrying only x, and an
autoResize that is true (so not the literal false). -/
def sampleOptions : BVOptions :=
  { url := JsStrVal.nullv, html := JsStrVal.strv [], preload := JsStrVal.undef,
    frame := some { x := some 5, y := none, width := none, height := none },
    autoResize := JsBoolVal.bv true }

theorem chunkString_nil : chunkString [] = [] := by
  rw [chunkString]; simp

theorem chunkString_ne_nil (js : Str) (h : js ≠ []) :
    chunkString js = js.take CHUNK_SIZE :: chunkString (js.drop CHUNK_SIZE) := by
  rw [chunkString]; simp [h]

/-- Concatenating the chunks recovers the original string. -/
theorem chunkString_flatten (js : Str) : (chunkString js).flatten = js := by
  induction js using chunkString.induct with
  | case1 => rw [chunkString_nil]; rfl
  | case2 js h ih =>
    rw [chunkString_ne_nil js h]
    simp [ih]

/-- Every chunk is nonempty and holds at most CHUNK_SIZE code units. -/
theorem chunkString_bounds (js : Str) :
    ∀ c ∈ chunkString js, c ≠ [] ∧ c.length ≤ CHUNK_SIZE := by
  induction js using chunkString.induct with
  | case1 => rw [chunkString_nil]; intro c hc; cases hc
  | case2 js h ih =>
    rw [chunkString_ne_nil js h]
    intro c hc
    rcases List.mem_cons.mp hc with hc | hc
    · subst hc
      constructor
      · intro htake
        have : js = [] := by
          have hlen := congrArg List.length htake
          simp only [List.length_take, List.length_nil] at hlen
          rcases Nat.min_eq_zero_iff.mp hlen with h0 | h0
          · exact absurd h0 (by decide)
          · exact List.eq_nil_of_length_eq_zero h0
        exact h this
      · simpa using List.length_take_le CHUNK_SIZE js
    · exact ih c hc

/-- Every code unit appearing in a chunk appears in the original string. -/
theorem chunkString_mem_subset (js : Str) :
    ∀ c ∈ chunkString js, ∀ u ∈ c, u ∈ js := by
  intro c hc u hu
  have : u ∈ (chunkString js).flatten := List.mem_flatten.mpr ⟨c, hc, hu⟩
  rwa [chunkString_flatten] at this

/-- A nonempty string of at most CHUNK_SIZE code units is sent as exactly one
chunk. -/
theorem chunkString_eq_single (js : Str) (hne : js ≠ [])
    (hlen : js.length ≤ CHUNK_SIZE) : chunkString js = [js] := by
  rw [chunkString_ne_nil js hne, List.take_of_length_le hlen,
    List.drop_eq_nil_of_le hlen, chunkString_nil]

/-- When the length is a positive multiple of CHUNK_SIZE the encoder produces
exactly length / CHUNK_SIZE chunks. -/
theorem chunkString_length_of_multiple :
    ∀ (k : Nat) (js : Str), js.length = CHUNK_SIZE * k →
      (chunkString js).length = k := by
  intro k
  induction k with
  | zero =>
    intro js hlen
    simp only [Nat.mul_zero] at hlen
    rw [List.eq_nil_of_length_eq_zero hlen, chunkString_nil]
    rfl
  | succ n ih =>
    intro js hlen
    have hpos : 0 < js.length := by
      rw [hlen]
      exact Nat.mul_pos (by decide) (Nat.succ_pos n)
    have hne : js ≠ [] := by
      intro hnil; rw [hnil] at hpos; cases hpos
    rw [chunkString_ne_nil js hne]
    have hdrop : (js.drop CHUNK_SIZE).length = CHUNK_SIZE * n := by
      simp only [List.length_drop, hlen, Nat.mul_succ]
      omega
    simp [ih (js.drop CHUNK_SIZE) hdrop]

/-- For a string of ASCII code units, the UTF-8 byte length equals the code
unit count. -/
theorem utf8ByteLength_ascii (s : Str) (h : ∀ u ∈ s, u < 128) :
    utf8ByteLength s = s.length := by
  induction s with
  | nil => rfl
  | cons c rest ih =>
    have hc : c < 128 := h c (List.mem_cons_self c rest)
    cases rest with
    | nil =>
      simp [utf8ByteLength, utf8UnitWidth, hc]
    | cons c2 rest2 =>
      have hnotsurr : ¬(0xD800 ≤ c ∧ c < 0xDC00 ∧ 0xDC00 ≤ c2 ∧ c2 < 0xE000) := by
        intro hs
        omega
      have ih2 := ih (fun u hu => h u (List.mem_cons_of_mem c hu))
      simp only [utf8ByteLength, if_neg hnotsurr, ih2, utf8UnitWidth, if_pos hc,
        List.length_cons]
      omega

/-- Each code unit of the counterexample string encodes to two UTF-8 bytes. -/
theorem utf8ByteLength_cons_233 (l : Str) :
    utf8ByteLength (233 :: l) = 2 + utf8ByteLength l := by
  cases l with
  | nil => rfl
  | cons c2 rest =>
    have hnotsurr : ¬((0xD800:Nat) ≤ 233 ∧ (233:Nat) < 0xDC00 ∧ 0xDC00 ≤ c2 ∧ c2 < 0xE000) := by
      intro hs
      omega
    simp [utf8ByteLength, if_neg hnotsurr, utf8UnitWidth]

theorem utf8ByteLength_replicate_233 (n : Nat) :
    utf8ByteLength (List.replicate n 233) = 2 * n := by
  induction n with
  | zero => rfl
  | succ m ih =>
    rw [List.replicate_succ, utf8ByteLength_cons_233, ih]
    omega

/-- The two byte-level models agree: the byte count of a string is the
length of its encoding. -/
theorem utf8EncodeChar_length (c : Nat) :
    (utf8EncodeChar c).length = utf8UnitWidth c := by
  rw [utf8EncodeChar, utf8UnitWidth]
  split_ifs <;> rfl

theorem utf8ByteLength_eq_utf8Encode_length (s : Str) :
    utf8ByteLength s = (utf8Encode s).length := by
  induction s using utf8Encode.induct with
  | case1 => rfl
  | case2 c => simp [utf8ByteLength, utf8Encode, utf8EncodeChar_length]
  | case3 c c2 rest hcond ih =>
    simp [utf8ByteLength, utf8Encode, if_pos hcond, ih, utf8EncodePair]
    omega
  | case4 c c2 rest hcond ih =>
    simp [utf8ByteLength, utf8Encode, if_neg hcond, ih, utf8EncodeChar_length]

/-- A plain ASCII code unit is always encoded on its own byte, first in its
write. -/
theorem utf8Encode_cons_97 (l : Str) :
    utf8Encode (97 :: l) = 97 :: utf8Encode l := by
  cases l with
  | nil => rfl
  | cons c2 rest =>
    have hns : ¬((0xD800:Nat) ≤ 97 ∧ (97:Nat) < 0xDC00 ∧ 0xDC00 ≤ c2 ∧
        c2 < 0xE000) := by
      intro hcon
      exact absurd hcon.1 (by decide)
    have hchar : utf8EncodeChar 97 = [97] := rfl
    simp [utf8Encode, hns, hchar]

theorem utf8Encode_replicate97_append : ∀ (n : Nat) (l : Str),
    utf8Encode (List.replicate n 97 ++ l) =
      List.replicate n 97 ++ utf8Encode l := by
  intro n
  induction n with
  | zero => intro l; rfl
  | succ m ih =>
    intro l
    rw [List.replicate_succ, List.cons_append, utf8Encode_cons_97, ih l,
      List.cons_append]

/-- Encoding distributes over concatenation when the left part holds no
surrogate code unit: no pair can straddle the boundary. -/
theorem utf8Encode_append_no_surrogate : ∀ a : Str,
    (∀ u ∈ a, ¬(0xD800 ≤ u ∧ u < 0xE000)) → ∀ b : Str,
      utf8Encode (a ++ b) = utf8Encode a ++ utf8Encode b := by
  intro a
  induction a using utf8Encode.induct with
  | case1 => intro _ b; rfl
  | case2 c =>
    intro ha b
    have hc := ha c (List.mem_singleton_self c)
    cases b with
    | nil => simp [utf8Encode]
    | cons d rest =>
      have hns : ¬(0xD800 ≤ c ∧ c < 0xDC00 ∧ 0xDC00 ≤ d ∧ d < 0xE000) := by
        intro hcon
        exact hc ⟨hcon.1, by omega⟩
      simp [utf8Encode, hns]
  | case3 c c2 rest hcond ih =>
    intro ha b
    exact absurd ⟨hcond.1, by omega⟩ (ha c (List.mem_cons_self c (c2 :: rest)))
  | case4 c c2 rest hcond ih =>
    intro ha b
    have htail : ∀ u ∈ c2 :: rest, ¬(0xD800 ≤ u ∧ u < 0xE000) :=
      fun u hu => ha u (List.mem_cons_of_mem c hu)
    calc utf8Encode ((c :: c2 :: rest) ++ b)
        = utf8EncodeChar c ++ utf8Encode ((c2 :: rest) ++ b) := by
          simp [utf8Encode, hcond]
      _ = utf8EncodeChar c ++ (utf8Encode (c2 :: rest) ++ utf8Encode b) := by
          rw [ih htail b]
      _ = utf8Encode (c :: c2 :: rest) ++ utf8Encode b := by
          simp [utf8Encode, hcond]

/-- When the message holds no surrogate code unit, encoding each chunk write
on its own yields exactly the UTF-8 encoding of the whole message. -/
theorem chunkString_utf8Encode_flatten : ∀ js : Str,
    (∀ u ∈ js, ¬(0xD800 ≤ u ∧ u < 0xE000)) →
      ((chunkString js).map utf8Encode).flatten = utf8Encode js := by
  intro js
  induction js using chunkString.induct with
  | case1 => intro _; rw [chunkString_nil]; rfl
  | case2 js hne ih =>
    intro h
    rw [chunkString_ne_nil js hne]
    simp only [List.map_cons, List.flatten_cons]
    rw [ih (fun u hu => h u (List.drop_subset CHUNK_SIZE js hu)),
      ← utf8Encode_append_no_surrogate (js.take CHUNK_SIZE)
        (fun u hu => h u (List.take_subset CHUNK_SIZE js hu)) (js.drop CHUNK_SIZE),
      List.take_append_drop]

theorem drainBuffer_of_not_mem (buffer : Str) (h : (10:Nat) ∉ buffer) :
    drainBuffer buffer = ([], buffer) := by
  rw [drainBuffer]; simp [h]

theorem drainBuffer_of_mem (buffer : Str) (h : (10:Nat) ∈ buffer) :
    drainBuffer buffer =
      (buffer.take (buffer.indexOf 10) ::
          (drainBuffer (buffer.drop (buffer.indexOf 10 + 1))).1,
        (drainBuffer (buffer.drop (buffer.indexOf 10 + 1))).2) := by
  rw [drainBuffer]; simp [h]

/-- The leftover buffer after draining holds no newline. -/
theorem drainBuffer_snd_not_mem (buffer : Str) :
    (10:Nat) ∉ (drainBuffer buffer).2 := by
  induction buffer using drainBuffer.induct with
  | case1 buffer h eolIndex ih =>
    rw [drainBuffer_of_mem buffer h]
    exact ih
  | case2 buffer h =>
    rw [drainBuffer_of_not_mem buffer h]
    exact h

/-- Draining a buffer extended by new bytes first yields the lines already
complete in the old buffer, then the lines completed using the leftover plus
the new bytes. -/
theorem drainBuffer_append (v : Str) : ∀ buffer : Str,
    drainBuffer (buffer ++ v) =
      ((drainBuffer buffer).1 ++
          (drainBuffer ((drainBuffer buffer).2 ++ v)).1,
        (drainBuffer ((drainBuffer buffer).2 ++ v)).2) := by
  intro buffer
  induction buffer using drainBuffer.induct with
  | case1 buffer h eolIndex ih =>
    have ih2 : drainBuffer (buffer.drop (buffer.indexOf 10 + 1) ++ v) =
        ((drainBuffer (buffer.drop (buffer.indexOf 10 + 1))).1 ++
            (drainBuffer
              ((drainBuffer (buffer.drop (buffer.indexOf 10 + 1))).2 ++ v)).1,
          (drainBuffer
            ((drainBuffer (buffer.drop (buffer.indexOf 10 + 1))).2 ++ v)).2) := ih
    have hmem : (10:Nat) ∈ buffer ++ v := List.mem_append_left v h
    have hidx : (buffer ++ v).indexOf 10 = buffer.indexOf 10 :=
      List.indexOf_append_of_mem h
    have hlt : buffer.indexOf 10 < buffer.length := List.indexOf_lt_length.mpr h
    have htake : (buffer ++ v).take (buffer.indexOf 10) =
        buffer.take (buffer.indexOf 10) := by
      rw [List.take_append_eq_append_take, Nat.sub_eq_zero_of_le (Nat.le_of_lt hlt)]
      simp
    have hdrop : (buffer ++ v).drop (buffer.indexOf 10 + 1) =
        buffer.drop (buffer.indexOf 10 + 1) ++ v := by
      rw [List.drop_append_eq_append_drop, Nat.sub_eq_zero_of_le hlt]
      simp
    rw [drainBuffer_of_mem (buffer ++ v) hmem, hidx, htake, hdrop,
      drainBuffer_of_mem buffer h, ih2]
    simp
  | case2 buffer h =>
    rw [drainBuffer_of_not_mem buffer h]
    simp

/-- Running the read loop from any newline-free starting buffer delivers
exactly the events of the complete lines of the concatenated stream. -/
theorem readLoop_eq_batch {J : Type} (parseJson : Str → Option J) :
    ∀ (stream : List Str) (buffer : Str), (10:Nat) ∉ buffer →
      readLoop parseJson buffer stream =
        deliveredOf (lineOutcomes parseJson
          (drainBuffer (buffer ++ stream.flatten)).1) := by
  intro stream
  induction stream with
  | nil =>
    intro buffer hbuf
    rw [readLoop]
    simp [drainBuffer_of_not_mem buffer hbuf, lineOutcomes, deliveredOf]
  | cons value restOfStream ih =>
    intro buffer hbuf
    rw [readLoop]
    have hrem := drainBuffer_snd_not_mem (buffer ++ value)
    rw [ih (drainBuffer (buffer ++ value)).2 hrem]
    have hflat : buffer ++ (value :: restOfStream).flatten =
        (buffer ++ value) ++ restOfStream.flatten := by
      simp [List.flatten]
    rw [hflat, drainBuffer_append restOfStream.flatten (buffer ++ value)]
    simp [lineOutcomes, deliveredOf, List.filterMap_append]

/-- Claim C1, counterexample, refuting both byte-level guarantees of the
claim.  First, the encoder slices on UTF-16 code units, not on encoded
bytes, so a message of 2049 code units that each encode to two UTF-8 bytes
(here 0xE9) is transmitted as a single chunk write of 4098 bytes, against
the at-most-4096-bytes bound.  Second, a chunk boundary can split a
multi-byte character: in a message of 4095 ASCII units followed by the
surrogate pair D83D DE00 (one four-byte character), the first chunk takes
4096 units and so ends with the lone high surrogate; each write encodes its
chunk independently, turning the two halves into replacement characters, so
the bytes the receiver gets differ from the UTF-8 encoding of the message. -/
theorem C1_counterexample :
    (∃ c ∈ chunkString (List.replicate 2049 233), 4096 < utf8ByteLength c) ∧
    ((chunkString (List.replicate 4095 97 ++ [0xD83D, 0xDE00])).map
        utf8Encode).flatten ≠
      utf8Encode (List.replicate 4095 97 ++ [0xD83D, 0xDE00]) := by
  constructor
  · have hne : (List.replicate 2049 (233:Nat)) ≠ [] := by
      intro hcon
      have hclen := congrArg List.length hcon
      rw [List.length_replicate] at hclen
      exact absurd hclen (by decide)
    have hlen : (List.replicate 2049 (233:Nat)).length ≤ CHUNK_SIZE := by
      rw [List.length_replicate]; decide
    rw [chunkString_eq_single _ hne hlen]
    exact ⟨_, List.mem_singleton_self _,
      by rw [utf8ByteLength_replicate_233]; norm_num⟩
  · have hne : (List.replicate 4095 (97:Nat) ++ [0xD83D, 0xDE00]) ≠ [] := by
      intro hcon
      have hclen := congrArg List.length hcon
      simp only [List.length_append, List.length_replicate, List.length_cons,
        List.length_nil] at hclen
      exact absurd hclen (by decide)
    have h1 : (List.replicate 4095 (97:Nat)).length ≤ CHUNK_SIZE := by
      rw [List.length_replicate]; decide
    have h2 : CHUNK_SIZE - (List.replicate 4095 (97:Nat)).length = 1 := by
      rw [List.length_replicate]; decide
    have htake : (List.replicate 4095 (97:Nat) ++ [0xD83D, 0xDE00]).take
        CHUNK_SIZE = List.replicate 4095 97 ++ [0xD83D] := by
      rw [List.take_append_eq_append_take, List.take_of_length_le h1, h2,
        show List.take 1 [(0xD83D:Nat), 0xDE00] = [0xD83D] from rfl]
    have hdrop : (List.replicate 4095 (97:Nat) ++ [0xD83D, 0xDE00]).drop
        CHUNK_SIZE = [0xDE00] := by
      rw [List.drop_append_eq_append_drop, List.drop_eq_nil_of_le h1, h2,
        show List.drop 1 [(0xD83D:Nat), 0xDE00] = [0xDE00] from rfl,
        List.nil_append]
    have hchunks : chunkString (List.replicate 4095 (97:Nat) ++ [0xD83D, 0xDE00]) =
        [List.replicate 4095 97 ++ [0xD83D], [0xDE00]] := by
      rw [chunkString_ne_nil _ hne, htake, hdrop,
        chunkString_eq_single [0xDE00] (by decide) (by decide)]
    rw [hchunks]
    simp only [List.map_cons, List.map_nil, List.flatten_cons,
      List.flatten_nil, List.append_nil]
    rw [utf8Encode_replicate97_append 4095 [0xD83D],
      utf8Encode_replicate97_append 4095 [0xD83D, 0xDE00]]
    have e1 : utf8Encode [(0xD83D:Nat)] = [0xEF, 0xBF, 0xBD] := by decide
    have e2 : utf8Encode [(0xDE00:Nat)] = [0xEF, 0xBF, 0xBD] := by decide
    have e3 : utf8Encode [(0xD83D:Nat), 0xDE00] = [0xF0, 0x9F, 0x98, 0x80] := by
      decide
    rw [e1, e2, e3, List.append_assoc]
    intro hcon
    exact absurd (List.append_cancel_left hcon) (by decide)

/-- Claim C1 (amended): for every message string passed to the pipe-path
send, the encoder splits it into chunks of at most 4096 UTF-16 code units
each — which is at most 4096 bytes whenever the message is ASCII, but may
exceed 4096 bytes for non-ASCII content — writes the chunks in order with
their concatenation equal to the original code-unit string, and writes a
single newline terminator after all chunks; whenever no chunk boundary can
fall inside a surrogate pair because the message holds no surrogate code
unit, the transmitted bytes are exactly the UTF-8 encoding of the message
(while a boundary that does split a surrogate pair corrupts that character
for the receiver, as the counterexample shows). -/
theorem C1_chunked_send_amended (js : Str) :
    (∀ c ∈ chunkString js, c ≠ [] ∧ c.length ≤ CHUNK_SIZE) ∧
    (chunkString js).flatten = js ∧
    executeJavascript js = chunkString js ++ [[10]] ∧
    ((∀ u ∈ js, u < 128) → ∀ c ∈ chunkString js, utf8ByteLength c ≤ CHUNK_SIZE) ∧
    ((∀ u ∈ js, ¬(0xD800 ≤ u ∧ u < 0xE000)) →
      ((chunkString js).map utf8Encode).flatten = utf8Encode js) := by
  refine ⟨chunkString_bounds js, chunkString_flatten js, rfl, ?_,
    chunkString_utf8Encode_flatten js⟩
  intro hascii c hc
  rw [utf8ByteLength_ascii c
    (fun u hu => hascii u (chunkString_mem_subset js c hc u hu))]
  exact (chunkString_bounds js c hc).2

/-- Witness for the amended claim C1 at a concrete two-unit ASCII message. -/
theorem C1_chunked_send_amended_witness :
    (chunkString [97, 98]).flatten = [97, 98] ∧
    executeJavascript [97, 98] = chunkString [97, 98] ++ [[10]] ∧
    utf8ByteLength [97, 98] ≤ CHUNK_SIZE ∧
    ((chunkString [97, 98]).map utf8Encode).flatten = utf8Encode [97, 98] := by
  have h := C1_chunked_send_amended [97, 98]
  refine ⟨h.2.1, h.2.2.1, ?_, h.2.2.2.2 (by decide)⟩
  have hmem : [97, 98] ∈ chunkString [97, 98] := by
    rw [chunkString_eq_single [97, 98] (by simp) (by decide)]
    exact List.mem_singleton_self _
  exact h.2.2.2.1 (by decide) [97, 98] hmem

/-- Claim C2: the decode loop delivers to the handler exactly, in order, the
successfully parsed trimmed nonempty complete lines of the whole byte
stream, however the stream is cut into reads: a line that fails to parse is
logged as a droppedMalformed outcome and contributes nothing while every
later well-formed line is still delivered, and a line that trims to empty is
skipped rather than treated as malformed. -/
theorem C2_decode_loop {J : Type} (parseJson : Str → Option J)
    (stream : List Str) :
    readFromPipe parseJson stream =
      deliveredOf (lineOutcomes parseJson (drainBuffer stream.flatten).1) := by
  have h := readLoop_eq_batch parseJson stream [] (by simp)
  simpa [readFromPipe] using h

/-- Claim C3: when the message length is a positive exact multiple of the
4096 chunk size, encoding produces exactly length divided by 4096 chunks,
all nonempty — no spurious empty final chunk — followed by the single
newline terminator. -/
theorem C3_exact_multiple (js : Str) (k : Nat) (_hk : 0 < k)
    (hlen : js.length = CHUNK_SIZE * k) :
    (chunkString js).length = k ∧ k = js.length / CHUNK_SIZE ∧
    (∀ c ∈ chunkString js, c ≠ []) ∧
    executeJavascript js = chunkString js ++ [[10]] := by
  refine ⟨chunkString_length_of_multiple k js hlen, ?_,
    fun c hc => (chunkString_bounds js c hc).1, rfl⟩
  rw [hlen, Nat.mul_div_cancel_left k (by decide : 0 < CHUNK_SIZE)]

/-- Witness for claim C3 at a message of exactly one chunk length. -/
theorem C3_exact_multiple_witness :
    0 < 1 ∧ (List.replicate CHUNK_SIZE 97).length = CHUNK_SIZE * 1 ∧
    (chunkString (List.replicate CHUNK_SIZE 97)).length = 1 := by
  refine ⟨by decide, by rw [List.length_replicate, Nat.mul_one], ?_⟩
  exact (C3_exact_multiple (List.replicate CHUNK_SIZE 97) 1 (by decide)
    (by rw [List.length_replicate, Nat.mul_one])).1

/-- Claim C4: socket delivery is attempted first and the pipe path
(serialize, wrap, chunk, newline terminator) runs exactly when the socket
did not deliver: a successful socket delivery serializes nothing and writes
nothing to the pipe, while a failed one serializes and performs the chunked
pipe writes. -/
theorem C4_socket_first (socketDelivered : Bool) (stringifyResult : Option Str) :
    (transportSend socketDelivered stringifyResult).serializeAttempted =
      !socketDelivered ∧
    (socketDelivered = true →
      (transportSend socketDelivered stringifyResult).pipeWrites = []) ∧
    (socketDelivered = false → ∀ s : Str, stringifyResult = some s →
      (transportSend socketDelivered stringifyResult).pipeWrites =
          chunkString (wrapForExecute s) ++ [[10]] ∧
        (transportSend socketDelivered stringifyResult).pipeWrites ≠ []) := by
  cases socketDelivered <;> cases stringifyResult <;>
    simp [transportSend, executeJavascript]

/-- Witness for claim C4 on a failed socket delivery with a serializable
message. -/
theorem C4_socket_first_witness :
    (transportSend false (some [97])).pipeWrites =
        chunkString (wrapForExecute [97]) ++ [[10]] ∧
      (transportSend false (some [97])).pipeWrites ≠ [] :=
  (C4_socket_first false (some [97])).2.2 rfl [97] rfl

/-- Claim C5: a message whose payload cannot be JSON-serialized is caught at
the send boundary: the send completes normally with the error logged and no
pipe writes, and its presence in a sequence of sends leaves the outcome of
every other send unchanged. -/
theorem C5_serialize_error_contained
    (callsBefore callsAfter : List (Bool × Option Str)) :
    (transportSend false none).serializationErrorLogged = true ∧
    (transportSend false none).pipeWrites = [] ∧
    (transportSend false none).sentOverSocket = false ∧
    sendSequence (callsBefore ++ (false, none) :: callsAfter) =
      sendSequence callsBefore ++
        transportSend false none :: sendSequence callsAfter := by
  refine ⟨rfl, rfl, rfl, ?_⟩
  simp [sendSequence]

/-- Claim C6, counterexample: a mkfifo failure other than already-exists is
also swallowed — createStreams still completes with the failure merely
logged, so such a failure is not fatal and does not abort the view
initialization, contrary to the claim. -/
theorem C6_counterexample :
    createStreams (some MkfifoError.otherFailure) none =
      Except.ok
        { pipeOutCreateLogged := true, pipeInCreateLogged := false,
          openingWrites := [[10]] } := rfl

/-- Claim C6 (amended): pipe-pair creation is idempotent in the strong sense
that every creation failure — already exists or otherwise — is swallowed
with a log message and construction continues; no pipe creation failure
aborts the view initialization, and the newline opener is written in every
case. -/
theorem C6_creation_never_fatal_amended (outResult inResult : Option MkfifoError) :
    createStreams outResult inResult =
      Except.ok
        { pipeOutCreateLogged := outResult.isSome,
          pipeInCreateLogged := inResult.isSome,
          openingWrites := [[10]] } := rfl

/-- Claim C7, counterexample: after loadHTML then loadURL the html field
still holds the loaded html while the url field holds the loaded url, so
loadURL did not clear the html field and the two content sources are not
mutually exclusive. -/
theorem C7_counterexample :
    ((loadURL (loadHTML (constructView emptyOptions) 1 [104]).1 1 [117]).1).html =
        JsStrVal.strv [104] ∧
      ((loadURL (loadHTML (constructView emptyOptions) 1 [104]).1 1 [117]).1).url =
        JsStrVal.strv [117] :=
  ⟨rfl, rfl⟩

/-- Claim C7 (amended): loadURL sets the url field to its argument and issues
the load-url directive but leaves the html field unchanged, and loadHTML
sets the html field and issues the load-html directive but leaves the url
field unchanged; the load operations do not clear the other content source. -/
theorem C7_load_ops_amended (s : ViewInitState) (webviewId : Nat) (u hv : Str) :
    (loadURL s webviewId u).1.url = JsStrVal.strv u ∧
    (loadURL s webviewId u).1.html = s.html ∧
    (loadURL s webviewId u).2 = HostDirective.loadURLDirective webviewId u ∧
    (loadHTML s webviewId hv).1.html = JsStrVal.strv hv ∧
    (loadHTML s webviewId hv).1.url = s.url ∧
    (loadHTML s webviewId hv).2 = HostDirective.loadHTMLDirective webviewId hv :=
  ⟨rfl, rfl, rfl, rfl, rfl, rfl⟩

/-- Claim C8: on an inbound fire-and-forget message the wildcard handler, if
registered, is invoked first with the message name and payload, then the
name-specific handler, if registered, with the payload; both run when both
are registered and the absence of either or both simply produces no call,
never an error. -/
theorem C8_dispatch_order (hasHandler : Str → Bool) (messageName payload : Str) :
    (hasHandler starKey = true → hasHandler messageName = true →
      dispatchMessage hasHandler messageName payload =
        [RpcDispatchCall.wildcardCall messageName payload,
          RpcDispatchCall.namedCall messageName payload]) ∧
    (hasHandler starKey = true → hasHandler messageName = false →
      dispatchMessage hasHandler messageName payload =
        [RpcDispatchCall.wildcardCall messageName payload]) ∧
    (hasHandler starKey = false → hasHandler messageName = true →
      dispatchMessage hasHandler messageName payload =
        [RpcDispatchCall.namedCall messageName payload]) ∧
    (hasHandler starKey = false → hasHandler messageName = false →
      dispatchMessage hasHandler messageName payload = []) := by
  refine ⟨?_, ?_, ?_, ?_⟩ <;> intro h1 h2 <;> simp [dispatchMessage, h1, h2]

/-- Witness for claim C8 with both handlers registered. -/
theorem C8_dispatch_order_witness :
    dispatchMessage (fun _ => true) [97] [98] =
      [RpcDispatchCall.wildcardCall [97] [98],
        RpcDispatchCall.namedCall [97] [98]] :=
  (C8_dispatch_order (fun _ => true) [97] [98]).1 rfl rfl

theorem idsFrom_eq_range' : ∀ count counter : Nat,
    idsFrom counter count = List.range' counter count := by
  intro count
  induction count with
  | zero => intro counter; rfl
  | succ n ih =>
    intro counter
    rw [List.range'_succ counter n 1]
    simp [idsFrom, allocateWebviewId, ih (counter + 1)]

theorem natToDec_inj_pos (m n : Nat) (hm : 1 ≤ m) (hn : 1 ≤ n)
    (h : natToDec m = natToDec n) : m = n := by
  have hm0 : m ≠ 0 := by omega
  have hn0 : n ≠ 0 := by omega
  rw [natToDec, natToDec, if_neg hm0, if_neg hn0] at h
  have h2 := List.reverse_injective h
  have h3 := (List.map_injective_iff.mpr
    (fun a b hab => by simpa using hab : Function.Injective fun d => d + 48)) h2
  have h4 := congrArg (Nat.ofDigits 10) h3
  rwa [Nat.ofDigits_digits, Nat.ofDigits_digits] at h4

/-- Claim C9: ids are assigned from the process-wide counter starting at 1,
so after n constructions the assigned ids are exactly 1..n in order, all
distinct, and since the channel prefix embeds the id, any two distinct views
of one process instance (same hash and salt) have distinct channel
prefixes. -/
theorem C9_ids_and_prefixes (n : Nat) (hash randomId : Str) :
    viewIdsAfter n = List.range' 1 n ∧
    (viewIdsAfter n).Nodup ∧
    (∀ i ∈ viewIdsAfter n, 1 ≤ i) ∧
    (∀ i ∈ viewIdsAfter n, ∀ j ∈ viewIdsAfter n, i ≠ j →
      pipePrefixOf hash randomId i ≠ pipePrefixOf hash randomId j) := by
  have hrange : viewIdsAfter n = List.range' 1 n := by
    unfold viewIdsAfter nextWebviewIdInitial
    exact idsFrom_eq_range' n 1
  have hmem : ∀ i ∈ viewIdsAfter n, 1 ≤ i := by
    intro i hi
    rw [hrange] at hi
    exact (List.mem_range'_1.mp hi).1
  refine ⟨hrange, ?_, hmem, ?_⟩
  · rw [hrange]
    exact List.nodup_range' _ _
  · intro i hi j hj hij hcon
    simp only [pipePrefixOf] at hcon
    exact hij (natToDec_inj_pos i j (hmem i hi) (hmem j hj)
      (List.append_cancel_left hcon))

/-- Witness for claim C9 on the first two views of a process instance. -/
theorem C9_ids_and_prefixes_witness :
    (1:Nat) ∈ viewIdsAfter 2 ∧ (2:Nat) ∈ viewIdsAfter 2 ∧ (1:Nat) ≠ 2 ∧
    pipePrefixOf [97] [98] 1 ≠ pipePrefixOf [97] [98] 2 := by
  refine ⟨by decide, by decide, by decide, ?_⟩
  exact (C9_ids_and_prefixes 2 [97] [98]).2.2.2 1 (by decide) 2 (by decide)
    (by decide)

theorem truthyStr_default_url : truthyStr defaultOptions.url = true := by decide

theorem truthyStr_default_html : truthyStr defaultOptions.html = false := rfl

theorem truthyStr_default_preload : truthyStr defaultOptions.preload = false := rfl

/-- Claim C10: a view constructed without options (the default parameter is
defaultOptions), or with the corresponding fields absent or falsy, gets url
https://electrobun.dev, html null, preload null, frame (0, 0, 800, 600) —
with a partially supplied frame spread field-wise over these defaults — and
autoResize true unless the option is exactly the boolean literal false. -/
theorem C10_constructor_defaults (options : BVOptions) :
    constructView defaultOptions =
      { url := JsStrVal.strv (asciiOf "https://electrobun.dev"),
        html := JsStrVal.nullv, preload := JsStrVal.nullv,
        frame := defaultFrame, autoResize := true } ∧
    (truthyStr options.url = false →
      (constructView options).url =
        JsStrVal.strv (asciiOf "https://electrobun.dev")) ∧
    (truthyStr options.html = false →
      (constructView options).html = JsStrVal.nullv) ∧
    (truthyStr options.preload = false →
      (constructView options).preload = JsStrVal.nullv) ∧
    (options.frame = none → (constructView options).frame = defaultFrame) ∧
    (∀ f : FrameFields, options.frame = some f →
      (constructView options).frame = spreadFrame defaultFrame f) ∧
    (options.autoResize ≠ JsBoolVal.bv false →
      (constructView options).autoResize = true) ∧
    (options.autoResize = JsBoolVal.bv false →
      (constructView options).autoResize = false) := by
  refine ⟨by decide, ?_, ?_, ?_, ?_, ?_, ?_, ?_⟩
  · intro h
    simp [constructView, jsOrStr, h, truthyStr_default_url]
    rfl
  · intro h
    simp [constructView, jsOrStr, h, truthyStr_default_html]
  · intro h
    simp [constructView, jsOrStr, h, truthyStr_default_preload]
  · intro h
    simp [constructView, h]
  · intro f hf
    simp [constructView, hf]
  · intro h
    simp [constructView, h]
  · intro h
    simp [constructView, h]

/-- Witness for claim C10 at the sample options bag. -/
theorem C10_constructor_defaults_witness :
    truthyStr sampleOptions.url = false ∧
    (constructView sampleOptions).url =
      JsStrVal.strv (asciiOf "https://electrobun.dev") ∧
    (constructView sampleOptions).html = JsStrVal.nullv ∧
    (constructView sampleOptions).preload = JsStrVal.nullv ∧
    (constructView sampleOptions).frame =
      { x := 5, y := 0, width := 800, height := 600 } ∧
    (constructView sampleOptions).autoResize = true := by
  have h := C10_constructor_defaults sampleOptions
  refine ⟨rfl, h.2.1 rfl, h.2.2.1 rfl, h.2.2.2.1 rfl, ?_, h.2.2.2.2.2.2.1 (by decide)⟩
  have hf := h.2.2.2.2.2.1 { x := some 5, y := none, width := none, height := none } rfl
  rw [hf]
  rfl

end BrowserViewSpec
